import Mathlib

/-!
# Verification of contrib-stats (src/main.py)

A shallow embedding of the contrib-stats aggregation engine in Lean 4, with
theorems settling the specification's claims against the code.

Python dictionaries are modelled as association lists with Python's dict
semantics: lookup finds the first matching key, assignment replaces the value
of an existing key in place and appends a fresh key at the end.  Python
`datetime` values are modelled as `Int` epoch seconds.  The GitHub client is
an external collaborator modelled as a function from repository name to an
optional repository, where `none` models a `GithubException`.
-/

namespace ContribStats

/-- One author tally: Python `dict[str, int]` (author display name to
cumulative changed-line count). -/
abbrev Tally := List (String × Nat)

/-- The aggregation table: Python `dict[str, dict[str, int]]` (stat label to
author tally). -/
abbrev Agg := List (String × Tally)

/-- Python `table[key]` returning `none` on `KeyError`: first matching key. -/
def dictGet? {α : Type} (t : List (String × α)) (k : String) : Option α :=
  match t with
  | [] => none
  | (k', v) :: rest => if k' = k then some v else dictGet? rest k

/-- Lookup with a default for missing keys. -/
def dictGetD {α : Type} (t : List (String × α)) (k : String) (d : α) : α :=
  (dictGet? t k).getD d

/-- Python `table[key] = v`: replace the value of an existing key in place,
otherwise append the new key at the end (dict insertion order). -/
def dictSet {α : Type} (t : List (String × α)) (k : String) (v : α) :
    List (String × α) :=
  match t with
  | [] => [(k, v)]
  | (k', v') :: rest =>
    if k' = k then (k, v) :: rest else (k', v') :: dictSet rest k v

/-- `trygetitem` from main.py lines 69-75: try each table in order, return the
first hit, otherwise the default.  A Python dict either has the key (`some`)
or raises `KeyError` (`none`), so each table contributes one `Option`. -/
def trygetitem {α : Type} : List (Option α) → α → α
  | [], d => d
  | some v :: _, _ => v
  | none :: ts, d => trygetitem ts d

/-- `addornewitem` from main.py lines 80-84: `table[item] += value` when the
key exists, otherwise `table[item] = value`. -/
def addornewitem (table : Tally) (item : String) (value : Nat) : Tally :=
  match dictGet? table item with
  | some old => dictSet table item (old + value)
  | none => dictSet table item value

/-- Python single-character `str.split(sep)` on a list of characters:
`"".split(".") = [""]`, `"a.b".split(".") = ["a","b"]`. -/
def pySplit (sep : Char) : List Char → List (List Char)
  | [] => [[]]
  | c :: cs =>
    let r := pySplit sep cs
    if c = sep then [] :: r
    else
      match r with
      | [] => [[c]]
      | g :: gs => (c :: g) :: gs

/-- `filename.split(".")[-1]` — the token after the last dot, or the whole
string when it has no dot (main.py lines 170, 192, 279). -/
def extOf (s : String) : String :=
  ⟨(pySplit '.' s.data).getLastD []⟩

/-- One file entry of a commit as yielded by the GitHub client:
`file.filename` and `file.changes`. -/
structure FileChange where
  filename : String
  changes : Nat
deriving DecidableEq, Repr

/-- `commit.author`: may be absent; its `name` may also be absent. -/
structure Author where
  name : Option String
deriving DecidableEq, Repr

/-- One commit as yielded by the GitHub client. -/
structure Commit where
  author : Option Author
  files : List FileChange
deriving DecidableEq, Repr

/-- A resolved repository: `get_commits(since, until)` yields a commit list
for a time window (the windowing itself is the client's contract). -/
structure Repo where
  commits : Int → Int → List Commit

/-- A raw stat-group (or default) table from the parsed TOML: each of the five
known keys is present (`some`) or absent (`none`). -/
structure RawTable where
  label : Option String
  repos : Option (List String)
  filetypes : Option (List String)
  start_date : Option Int
  end_date : Option Int
deriving DecidableEq, Repr

/-- A raw table with no keys, the `{}` default of main.py line 243. -/
def emptyRawTable : RawTable := ⟨none, none, none, none, none⟩

/-- The parsed input document: optional `env`, optional `default` table,
optional `stats` list. -/
structure RawConfig where
  env : Option String
  defaultTable : Option RawTable
  stats : Option (List RawTable)

/-- A fully resolved stat job (main.py lines 253-257). -/
structure StatJob where
  label : String
  repos : List String
  filetypes : List String
  start : Int
  end_ : Int
deriving Repr

/-- Field resolution of main.py lines 250-257: each field is looked up in the
stat's own table, then the default block, then a hard-coded default
(`""`, `[]`, `[]`, epoch `0`, current time `now`). -/
def resolveJob (stat default : RawTable) (now : Int) : StatJob :=
  { label := trygetitem [stat.label, default.label] ""
    repos := trygetitem [stat.repos, default.repos] []
    filetypes := trygetitem [stat.filetypes, default.filetypes] []
    start := trygetitem [stat.start_date, default.start_date] 0
    end_ := trygetitem [stat.end_date, default.end_date] now }

/-- The inner file loop body, main.py lines 278-288: skip the file unless its
extension is in `filetypes`, otherwise accumulate its change count for the
commit's author name. -/
def fileStep (filetypes : List String) (authorName : String) (t : Tally)
    (f : FileChange) : Tally :=
  if extOf f.filename ∈ filetypes then addornewitem t authorName f.changes
  else t

/-- The commit loop body, main.py lines 271-288: skip commits with a null
author or null author name, otherwise fold the files. -/
def processCommit (filetypes : List String) (t : Tally) (c : Commit) : Tally :=
  match c.author with
  | none => t
  | some a =>
    match a.name with
    | none => t
    | some name => c.files.foldl (fileStep filetypes name) t

/-- Fold a commit list into a tally (the per-repository part of the loop). -/
def collectCommits (filetypes : List String) (commits : List Commit)
    (t : Tally) : Tally :=
  commits.foldl (processCommit filetypes) t

/-- The repo loop, main.py lines 263-288: resolving a repo may fail
(`GithubException`, leading to `exit(4)`); otherwise its windowed commits are
folded into the running tally. -/
def collectReposGo (gh : String → Option Repo) (filetypes : List String)
    (start end_ : Int) : List String → Tally → Except Unit Tally
  | [], t => .ok t
  | r :: rs, t =>
    match gh r with
    | none => .error ()
    | some repo =>
      collectReposGo gh filetypes start end_ rs
        (collectCommits filetypes (repo.commits start end_) t)

/-- One stat job's collection: `authors = {}` then the repo loop. -/
def collectRepos (gh : String → Option Repo) (job : StatJob) :
    Except Unit Tally :=
  collectReposGo gh job.filetypes job.start job.end_ job.repos []

/-- The stats loop of main.py lines 248-290, threading the running `label`
and `output` dict; a repo-resolution failure is `exit(4)`. -/
def runJobs (gh : String → Option Repo) (default : RawTable) (now : Int) :
    List RawTable → String → Agg → Except Nat (String × Agg)
  | [], label, output => .ok (label, output)
  | stat :: rest, _, output =>
    let job := resolveJob stat default now
    match collectRepos gh job with
    | .error _ => .error 4
    | .ok authors =>
      runJobs gh default now rest job.label (dictSet output job.label authors)

/-- The serialized output, by branch of `write_output` (main.py lines
186-209).  The TOML/JSON/repr branches serialize the whole table; the CSV
branch carries the emitted rows. -/
inductive OutData where
  | tomlOut (t : Agg)
  | jsonOut (t : Agg)
  | csvOut (rows : List (List String))
  | reprOut (t : Agg)
deriving DecidableEq, Repr

/-- `write_output`, main.py lines 186-209: dispatch on the extension of the
output filename.  The CSV branch reads `output[first_stat]`, which raises
`KeyError` (`.error`) when the label is not a key of the table. -/
def write_output (output : Agg) (output_filename : String)
    (first_stat : String) : Except Unit OutData :=
  let extension := extOf output_filename
  if extension = "toml" then .ok (.tomlOut output)
  else if extension = "json" then .ok (.jsonOut output)
  else if extension = "csv" then
    match dictGet? output first_stat with
    | none => .error ()
    | some t =>
      .ok (.csvOut (["user", "contrib"] :: t.map fun kv => [kv.1, toString kv.2]))
  else .ok (.reprOut output)

/-- The parsed form of `DEFAULT_INPUT` (main.py lines 36-47): `env = ".env"`,
an empty `[default]` table, and one stats entry for the Vencord repository
over January 2024 (epoch seconds). -/
def defaultConfig : RawConfig :=
  { env := some ".env"
    defaultTable := some emptyRawTable
    stats := some [{ label := some "vencord"
                     repos := some ["Vendicated/Vencord"]
                     filetypes := some ["ts"]
                     start_date := some 1704067200
                     end_date := some 1706745600 }] }

/-- The observable outcome of one run of `main`: `exited code written` is a
process exit with that code, carrying the serialized output when one was
written; `keyError` is the uncaught `KeyError` escaping `write_output`
(a Python traceback, i.e. an abnormal non-zero exit). -/
inductive MainOutcome where
  | exited (code : Nat) (written : Option OutData)
  | keyError
deriving DecidableEq, Repr

/-- `handle_signal`, main.py lines 212-215: a user interrupt exits with
status 0. -/
def handleSignalCode : Nat := 0

/-- The part of `main` after a successful parse (main.py lines 234-300):
resolve the default block and stats list, run the stats loop, then write the
output once. -/
def mainAfterParse (outputName : String) (cfg : RawConfig)
    (gh : String → Option Repo) (now : Int) : MainOutcome :=
  let defaultT := trygetitem [cfg.defaultTable] emptyRawTable
  let stats := trygetitem [cfg.stats] []
  match runJobs gh defaultT now stats "" [] with
  | .error c => .exited c none
  | .ok (label, output) =>
    match write_output output outputName label with
    | .error _ => .keyError
    | .ok od => .exited 0 (some od)

/-- `main`, main.py lines 218-306 composed with `open_files` (113-139) and
the `exit(0)` of line 311, as a function of the run's external inputs:
the input/output path arguments, whether opening each file would succeed,
the TOML parse result of the input text, the GitHub client, and the current
time.  `exit(1)`: input open failure; `exit(2)`: output open failure;
`exit(3)`: TOML decode failure; `exit(4)`: repository resolution failure —
each before any output is written.  On success `write_output` runs once and
the process exits 0. -/
def mainModel (inputName outputName : String)
    (inputOpenOk outputOpenOk : Bool)
    (parsed : Except Unit RawConfig)
    (gh : String → Option Repo) (now : Int) : MainOutcome :=
  if inputName ≠ "-" ∧ inputOpenOk = false then .exited 1 none
  else if outputName ≠ "-" ∧ outputOpenOk = false then .exited 2 none
  else
    match (if inputName = "-" then .ok defaultConfig else parsed) with
    | .error _ => .exited 3 none
    | .ok cfg => mainAfterParse outputName cfg gh now

/-! ## The observation sink

`main.py` routes every console message through the wrappers `print`/`pprint`
(lines 55-64), which drop the message when the global `silent` flag is set.
The logged model below reproduces the run with its message stream; messages
are modelled as an inductive type rather than formatted text. -/

/-- One message sent to the observation sink. -/
inductive Msg where
  | noInputFile
  | couldNotOpenInput
  | couldNotOpenOutput
  | couldNotDecodeToml
  | onlyLastStats
  | unsupportedFiletype
  | noApiToken
  | startingMsg
  | processingLabel (label : String)
  | processingRepo (repo : String)
  | unableToGet (repo : String)
  | fileChange (filename author : String) (changes : Nat)
  | doneMsg
  | outputDump (output : Agg)
deriving DecidableEq, Repr

/-- The `print` wrapper, main.py lines 55-58: emit unless `silent`. -/
def printL (silent : Bool) (log : List Msg) (m : Msg) : List Msg :=
  if silent then log else log ++ [m]

/-- Logged file loop body (main.py lines 278-288), also reporting each
qualifying file change via `print_filechange` (lines 158-163). -/
def fileStepL (silent : Bool) (filetypes : List String) (authorName : String) :
    Tally × List Msg → FileChange → Tally × List Msg
  | (t, log), f =>
    if extOf f.filename ∈ filetypes then
      (addornewitem t authorName f.changes,
       printL silent log (.fileChange f.filename authorName f.changes))
    else (t, log)

/-- Logged commit loop body (main.py lines 271-288). -/
def processCommitL (silent : Bool) (filetypes : List String) :
    Tally × List Msg → Commit → Tally × List Msg
  | s, c =>
    match c.author with
    | none => s
    | some a =>
      match a.name with
      | none => s
      | some name => c.files.foldl (fileStepL silent filetypes name) s

/-- Logged commit list fold. -/
def collectCommitsL (silent : Bool) (filetypes : List String)
    (commits : List Commit) (s : Tally × List Msg) : Tally × List Msg :=
  commits.foldl (processCommitL silent filetypes) s

/-- Logged repo loop (main.py lines 263-288); on failure the log at the
moment of `exit(4)` is returned. -/
def collectReposGoL (silent : Bool) (gh : String → Option Repo)
    (filetypes : List String) (start end_ : Int) :
    List String → Tally × List Msg → Except (List Msg) (Tally × List Msg)
  | [], s => .ok s
  | r :: rs, (t, log) =>
    let log := printL silent log (.processingRepo r)
    match gh r with
    | none => .error (printL silent log (.unableToGet r))
    | some repo =>
      collectReposGoL silent gh filetypes start end_ rs
        (collectCommitsL silent filetypes (repo.commits start end_) (t, log))

/-- Logged stats loop (main.py lines 248-290). -/
def runJobsL (silent : Bool) (gh : String → Option Repo) (default : RawTable)
    (now : Int) :
    List RawTable → String → Agg → List Msg →
      Except (Nat × List Msg) (String × Agg × List Msg)
  | [], label, output, log => .ok (label, output, log)
  | stat :: rest, _, output, log =>
    let job := resolveJob stat default now
    let log := printL silent log (.processingLabel job.label)
    match collectReposGoL silent gh job.filetypes job.start job.end_
        job.repos ([], log) with
    | .error log => .error (4, log)
    | .ok (authors, log) =>
      runJobsL silent gh default now rest job.label
        (dictSet output job.label authors) log

/-- `filetype_check`, main.py lines 166-183: advisory warnings only. -/
def filetype_checkL (silent : Bool) (output_filename : String)
    (stats_count : Nat) (log : List Msg) : List Msg :=
  if output_filename = "-" then log
  else
    let extension := extOf output_filename
    let log :=
      if extension = "csv" ∧ stats_count > 1 then
        printL silent log .onlyLastStats
      else log
    if ¬(extension = "toml" ∨ extension = "json" ∨ extension = "csv") then
      printL silent log .unsupportedFiletype
    else log

/-- The final output step of the logged run (main.py lines 292-300): the
done message, the table dump, then `write_output`. -/
def mainWriteL (silent : Bool) (outputName : String)
    (res : Except (Nat × List Msg) (String × Agg × List Msg)) :
    MainOutcome × List Msg :=
  match res with
  | .error (c, log) => (.exited c none, log)
  | .ok (label, output, log) =>
    let log := printL silent log .doneMsg
    let log := printL silent log (.outputDump output)
    match write_output output outputName label with
    | .error _ => (.keyError, log)
    | .ok od => (.exited 0 (some od), log)

/-- The logged run after a successful parse (main.py lines 234-300):
`filetype_check` warnings, the missing-token warning of `get_github`, the
starting message, the stats loop, then the output step. -/
def mainAfterParseL (silent hasToken : Bool) (outputName : String)
    (cfg : RawConfig) (gh : String → Option Repo) (now : Int)
    (log : List Msg) : MainOutcome × List Msg :=
  let stats := trygetitem [cfg.stats] []
  let log := filetype_checkL silent outputName stats.length log
  let log := if hasToken then log else printL silent log .noApiToken
  let defaultT := trygetitem [cfg.defaultTable] emptyRawTable
  let log := printL silent log .startingMsg
  mainWriteL silent outputName (runJobsL silent gh defaultT now stats "" [] log)

/-- `main` with its message stream: the same run as `mainModel`, threading
the observation sink through `open_files` (line 115 warning, lines 127 and
136 error reports), the decode error report (line 231), `filetype_check`
(line 234), `get_github`'s missing-token warning (lines 142-155), and the
status lines of the stats loop (lines 246-293). -/
def mainModelL (silent : Bool) (hasToken : Bool)
    (inputName outputName : String)
    (inputOpenOk outputOpenOk : Bool)
    (parsed : Except Unit RawConfig)
    (gh : String → Option Repo) (now : Int) : MainOutcome × List Msg :=
  let log : List Msg := []
  let log := if inputName = "-" then printL silent log .noInputFile else log
  if inputName ≠ "-" ∧ inputOpenOk = false then
    (.exited 1 none, printL silent log .couldNotOpenInput)
  else if outputName ≠ "-" ∧ outputOpenOk = false then
    (.exited 2 none, printL silent log .couldNotOpenOutput)
  else
    match (if inputName = "-" then .ok defaultConfig else parsed) with
    | .error _ => (.exited 3 none, printL silent log .couldNotDecodeToml)
    | .ok cfg => mainAfterParseL silent hasToken outputName cfg gh now log

/-- The specification's description of one commit's contribution to author
`a`: the sum of the change counts of the commit's files whose extension
passes the filter, when the commit's author and author name are non-null and
the name is `a`; zero otherwise. -/
def specAuthorTotal (filetypes : List String) (a : String) (c : Commit) :
    Nat :=
  match c.author with
  | none => 0
  | some auth =>
    match auth.name with
    | none => 0
    | some n =>
      if n = a then
        ((c.files.filter fun f => extOf f.filename ∈ filetypes).map
          (fun f => f.changes)).sum
      else 0

/-- The commit list of one repository as seen by a successful run (the
`GithubException` branch aborts the run, so under success it never fires). -/
def repoCommits (gh : String → Option Repo) (start end_ : Int) (r : String) :
    List Commit :=
  match gh r with
  | none => []
  | some repo => repo.commits start end_

/-- Forget the log of a logged repo-loop result. -/
def exceptTally (r : Except (List Msg) (Tally × List Msg)) :
    Except Unit Tally :=
  match r with
  | .ok (u, _) => .ok u
  | .error _ => .error ()

/-- Forget the log of a logged stats-loop result. -/
def exceptAgg (r : Except (Nat × List Msg) (String × Agg × List Msg)) :
    Except Nat (String × Agg) :=
  match r with
  | .ok (l, o, _) => .ok (l, o)
  | .error (c, _) => .error c

/-! ### Concrete fixtures used by the witness theorems -/

def w1gh : String → Option Repo :=
  fun _ => some ⟨fun _ _ =>
    [⟨some ⟨some "Alice"⟩, [⟨"x.ts", 4⟩, ⟨"y.py", 9⟩]⟩,
     ⟨none, [⟨"z.ts", 2⟩]⟩,
     ⟨some ⟨none⟩, [⟨"w.ts", 7⟩]⟩]⟩

def w1job : StatJob := ⟨"lbl", ["r1"], ["ts"], 0, 10⟩

def w4gh : String → Option Repo :=
  fun r =>
    if r = "ra" then some ⟨fun _ _ => [⟨some ⟨some "alice"⟩, [⟨"m.ts", 3⟩]⟩]⟩
    else some ⟨fun _ _ => [⟨some ⟨some "bob"⟩, [⟨"n.ts", 5⟩]⟩]⟩

def w4s1 : RawTable := ⟨some "x", some ["ra"], some ["ts"], some 0, some 10⟩

def w4s2 : RawTable := ⟨some "x", some ["rb"], some ["ts"], some 0, some 10⟩

def w5gh : String → Option Repo :=
  fun r =>
    if r = "ra" then some ⟨fun _ _ => [⟨some ⟨some "alice"⟩, [⟨"m.ts", 3⟩]⟩]⟩
    else some ⟨fun _ _ => [⟨some ⟨some "bob"⟩, [⟨"n.ts", 5⟩]⟩]⟩

def w5sa : RawTable := ⟨some "a", some ["ra"], some ["ts"], some 0, some 10⟩

def w5sb : RawTable := ⟨some "b", some ["rb"], some ["ts"], some 0, some 10⟩

/-! ## Dictionary lemmas -/

theorem dictGet?_dictSet_self {α : Type} (t : List (String × α)) (k : String)
    (v : α) : dictGet? (dictSet t k v) k = some v := by
  induction t with
  | nil => simp [dictSet, dictGet?]
  | cons p rest ih =>
    obtain ⟨k', v'⟩ := p
    by_cases h : k' = k
    · simp [dictSet, dictGet?, h]
    · simp [dictSet, dictGet?, h, ih]

theorem dictGet?_dictSet_ne {α : Type} (t : List (String × α)) (k a : String)
    (v : α) (h : k ≠ a) : dictGet? (dictSet t k v) a = dictGet? t a := by
  induction t with
  | nil => simp [dictSet, dictGet?, h]
  | cons p rest ih =>
    obtain ⟨k', v'⟩ := p
    by_cases hk : k' = k
    · subst hk
      simp [dictSet, dictGet?, h]
    · simp [dictSet, dictGet?, hk, ih]

/-- The accumulation step: looking up `a` after `addornewitem t k v` gives the
old total plus `v` exactly when `a = k`. -/
theorem dictGetD_addornewitem (t : Tally) (k a : String) (v : Nat) :
    dictGetD (addornewitem t k v) a 0 =
      dictGetD t a 0 + (if k = a then v else 0) := by
  by_cases hka : k = a
  · subst hka
    unfold addornewitem
    cases hget : dictGet? t k with
    | none =>
      simp [dictGetD, dictGet?_dictSet_self, hget]
    | some old =>
      simp [dictGetD, dictGet?_dictSet_self, hget]
  · unfold addornewitem
    cases hget : dictGet? t k with
    | none => simp [dictGetD, dictGet?_dictSet_ne t k a _ hka, hka]
    | some old => simp [dictGetD, dictGet?_dictSet_ne t k a _ hka, hka]

/-! ## The accumulated total is the sum over qualifying (commit, file) pairs -/

theorem dictGetD_foldl_fileStep (filetypes : List String) (name a : String)
    (files : List FileChange) (t : Tally) :
    dictGetD (files.foldl (fileStep filetypes name) t) a 0 =
      dictGetD t a 0 +
        (if name = a then
          ((files.filter fun f => extOf f.filename ∈ filetypes).map
            (fun f => f.changes)).sum
        else 0) := by
  induction files generalizing t with
  | nil => simp
  | cons f fs ih =>
    simp only [List.foldl_cons]
    rw [ih]
    unfold fileStep
    by_cases hf : extOf f.filename ∈ filetypes
    · rw [List.filter_cons_of_pos (by simpa using hf)]
      simp only [hf, if_true, dictGetD_addornewitem, List.map_cons,
        List.sum_cons]
      by_cases hna : name = a
      · simp only [hna, if_true]
        omega
      · simp [hna]
    · rw [List.filter_cons_of_neg (by simpa using hf)]
      simp [hf]

theorem dictGetD_processCommit (filetypes : List String) (a : String)
    (t : Tally) (c : Commit) :
    dictGetD (processCommit filetypes t c) a 0 =
      dictGetD t a 0 + specAuthorTotal filetypes a c := by
  unfold processCommit specAuthorTotal
  cases hA : c.author with
  | none => simp
  | some auth =>
    cases hN : auth.name with
    | none => simp [hN]
    | some n => simp [hN, dictGetD_foldl_fileStep]

theorem dictGetD_collectCommits (filetypes : List String) (a : String)
    (commits : List Commit) (t : Tally) :
    dictGetD (collectCommits filetypes commits t) a 0 =
      dictGetD t a 0 + (commits.map (specAuthorTotal filetypes a)).sum := by
  induction commits generalizing t with
  | nil => simp [collectCommits]
  | cons c cs ih =>
    simp only [collectCommits, List.foldl_cons, List.map_cons, List.sum_cons]
      at *
    rw [ih, dictGetD_processCommit]
    omega

theorem collectReposGo_ok (gh : String → Option Repo)
    (filetypes : List String) (start end_ : Int) (repos : List String)
    (t u : Tally) (h : collectReposGo gh filetypes start end_ repos t = .ok u) :
    u = collectCommits filetypes
          (repos.map (repoCommits gh start end_)).flatten t := by
  induction repos generalizing t with
  | nil =>
    simp only [collectReposGo] at h
    cases h
    simp [collectCommits]
  | cons r rs ih =>
    simp only [collectReposGo] at h
    cases hg : gh r with
    | none => rw [hg] at h; exact absurd h (by simp)
    | some repo =>
      rw [hg] at h
      have := ih _ h
      simp only [repoCommits, hg, List.map_cons, List.flatten_cons]
      rw [this, collectCommits, collectCommits, collectCommits,
        List.foldl_append]

/-! ## Extension extraction lemmas -/

theorem pySplit_ne_nil (sep : Char) (l : List Char) : pySplit sep l ≠ [] := by
  cases l with
  | nil => simp [pySplit]
  | cons c cs =>
    unfold pySplit
    by_cases h : c = sep
    · simp [h]
    · simp only [h, if_false]
      cases pySplit sep cs <;> simp

theorem pySplit_of_not_mem (sep : Char) (l : List Char) (h : sep ∉ l) :
    pySplit sep l = [l] := by
  induction l with
  | nil => rfl
  | cons c cs ih =>
    simp only [List.mem_cons, not_or] at h
    unfold pySplit
    rw [ih h.2]
    simp [Ne.symm h.1]

theorem two_le_pySplit_length (sep : Char) (l : List Char) (h : sep ∈ l) :
    2 ≤ (pySplit sep l).length := by
  induction l with
  | nil => simp at h
  | cons c cs ih =>
    unfold pySplit
    by_cases hc : c = sep
    · simp only [hc, if_true, List.length_cons]
      have := pySplit_ne_nil sep cs
      cases hs : pySplit sep cs with
      | nil => exact absurd hs this
      | cons g gs => simp
    · have hcs : sep ∈ cs := by
        rcases List.mem_cons.mp h with h1 | h1
        · exact absurd h1.symm hc
        · exact h1
      have := ih hcs
      simp only [hc, if_false]
      cases hs : pySplit sep cs with
      | nil => exact absurd hs (pySplit_ne_nil sep cs)
      | cons g gs =>
        rw [hs] at this
        simpa using this

theorem getLastD_cons_of_ne_nil {α : Type} (x : α) (r : List α) (d : α)
    (h : r ≠ []) : (x :: r).getLastD d = r.getLastD d := by
  cases r with
  | nil => exact absurd rfl h
  | cons y r' => rw [List.getLastD_cons, List.getLastD_cons, List.getLastD_cons]

theorem getLastD_irrel {α : Type} (r : List α) (d₁ d₂ : α) (h : r ≠ []) :
    r.getLastD d₁ = r.getLastD d₂ := by
  cases r with
  | nil => exact absurd rfl h
  | cons y r' => rw [List.getLastD_cons, List.getLastD_cons]

theorem pySplit_cons_pos (sep : Char) (cs : List Char) :
    pySplit sep (sep :: cs) = [] :: pySplit sep cs := by
  conv_lhs => unfold pySplit
  simp

theorem pySplit_cons_neg (sep c : Char) (cs : List Char) (h : c ≠ sep)
    (g : List Char) (gs : List (List Char)) (hs : pySplit sep cs = g :: gs) :
    pySplit sep (c :: cs) = (c :: g) :: gs := by
  conv_lhs => unfold pySplit
  simp [h, hs]

theorem pySplit_getLastD_append (sep : Char) (l₁ l₂ : List Char) :
    (pySplit sep (l₁ ++ sep :: l₂)).getLastD [] =
      (pySplit sep l₂).getLastD [] := by
  induction l₁ with
  | nil =>
    rw [List.nil_append, pySplit_cons_pos]
    exact getLastD_cons_of_ne_nil _ _ _ (pySplit_ne_nil sep l₂)
  | cons c l₁' ih =>
    rw [List.cons_append]
    by_cases hc : c = sep
    · rw [hc, pySplit_cons_pos]
      rw [getLastD_cons_of_ne_nil _ _ _ (pySplit_ne_nil sep _)]
      exact ih
    · have hmem : sep ∈ l₁' ++ sep :: l₂ := by simp
      have hlen := two_le_pySplit_length sep _ hmem
      cases hs : pySplit sep (l₁' ++ sep :: l₂) with
      | nil => exact absurd hs (pySplit_ne_nil sep _)
      | cons g gs =>
        rw [hs] at hlen
        have hgs : gs ≠ [] := by
          cases gs with
          | nil => simp at hlen
          | cons y ys => simp
        rw [hs] at ih
        rw [pySplit_cons_neg sep c _ hc g gs hs]
        calc ((c :: g) :: gs).getLastD [] = gs.getLastD (c :: g) := by
              rw [List.getLastD_cons]
          _ = gs.getLastD g := getLastD_irrel gs _ _ hgs
          _ = (g :: gs).getLastD [] := by rw [List.getLastD_cons]
          _ = (pySplit sep l₂).getLastD [] := ih

/-- A filename with no dot yields itself as its extension. -/
theorem extOf_no_dot (s : String) (h : '.' ∉ s.data) : extOf s = s := by
  unfold extOf
  rw [pySplit_of_not_mem _ _ h]
  rfl

/-- The extension is the suffix after the last dot: appending `"." ++ suf`
with a dot-free `suf` makes `suf` the extension, whatever came before. -/
theorem extOf_append_dot (pre suf : String) (h : '.' ∉ suf.data) :
    extOf (pre ++ "." ++ suf) = suf := by
  unfold extOf
  have hdata : (pre ++ "." ++ suf).data = pre.data ++ '.' :: suf.data := by
    simp [String.data_append]
  rw [hdata, pySplit_getLastD_append, pySplit_of_not_mem _ _ h]
  rfl

/-! ## Stats-loop lemmas -/

theorem runJobs_error_eq_four (gh : String → Option Repo) (d : RawTable)
    (now : Int) (stats : List RawTable) (l₀ : String) (o₀ : Agg) (c : Nat)
    (h : runJobs gh d now stats l₀ o₀ = .error c) : c = 4 := by
  induction stats generalizing l₀ o₀ with
  | nil => simp [runJobs] at h
  | cons s rest ih =>
    simp only [runJobs] at h
    cases hc : collectRepos gh (resolveJob s d now) with
    | error e =>
      rw [hc] at h
      simpa using h.symm
    | ok authors =>
      rw [hc] at h
      exact ih _ _ h

/-- After a successful run over `init ++ [lastS]`, the final `label` is the
last job's resolved label and the table maps it to the last job's own tally. -/
theorem runJobs_concat (gh : String → Option Repo) (d : RawTable) (now : Int)
    (init : List RawTable) (lastS : RawTable) (l₀ : String) (o₀ : Agg)
    (label : String) (output : Agg)
    (h : runJobs gh d now (init ++ [lastS]) l₀ o₀ = .ok (label, output)) :
    label = (resolveJob lastS d now).label ∧
      ∃ t, collectRepos gh (resolveJob lastS d now) = .ok t ∧
        dictGet? output label = some t := by
  induction init generalizing l₀ o₀ with
  | nil =>
    simp only [List.nil_append, runJobs] at h
    cases hc : collectRepos gh (resolveJob lastS d now) with
    | error e => rw [hc] at h; simp at h
    | ok authors =>
      rw [hc] at h
      simp only [runJobs, Except.ok.injEq, Prod.mk.injEq] at h
      obtain ⟨hl, ho⟩ := h
      subst hl
      subst ho
      exact ⟨rfl, authors, rfl, dictGet?_dictSet_self _ _ _⟩
  | cons s rest ih =>
    simp only [List.cons_append, runJobs] at h
    cases hc : collectRepos gh (resolveJob s d now) with
    | error e => rw [hc] at h; simp at h
    | ok authors =>
      rw [hc] at h
      exact ih _ _ h

/-! ## Claims C1 - C5 -/

/-- C1: for every stat job that collects successfully, the total recorded for
an author equals the exact sum, over every commit of every repository in the
job's window, of the changed-line counts of the files whose extension is in
the configured filter, where commits with a null author or null author name
contribute zero (and cause no error, the collection being total on them). -/
theorem c1_author_total_is_sum (gh : String → Option Repo) (job : StatJob)
    (t : Tally) (h : collectRepos gh job = .ok t) (a : String) :
    dictGetD t a 0 =
      ((job.repos.map (repoCommits gh job.start job.end_)).flatten.map
        (specAuthorTotal job.filetypes a)).sum := by
  unfold collectRepos at h
  rw [collectReposGo_ok gh job.filetypes job.start job.end_ job.repos [] t h,
    dictGetD_collectCommits]
  simp [dictGetD, dictGet?]

theorem c1_author_total_is_sum_witness :
    dictGetD [("Alice", 4)] "Alice" 0 =
      ((w1job.repos.map (repoCommits w1gh w1job.start w1job.end_)).flatten.map
        (specAuthorTotal w1job.filetypes "Alice")).sum :=
  c1_author_total_is_sum w1gh w1job [("Alice", 4)] (by rfl) "Alice"

/-- C2: each StatJob field is resolved by looking it up in the job's own raw
table first, then in the default block, then falling back to the hard-coded
default (empty string, empty list, empty list, epoch, current time); and the
resolution is independent per field: each resolved field depends only on the
same field of the raw stat table. -/
theorem c2_field_resolution (stat d : RawTable) (now : Int) :
    ((∀ v, stat.label = some v → (resolveJob stat d now).label = v) ∧
      (stat.label = none → ∀ v, d.label = some v →
        (resolveJob stat d now).label = v) ∧
      (stat.label = none → d.label = none →
        (resolveJob stat d now).label = "")) ∧
    ((∀ v, stat.repos = some v → (resolveJob stat d now).repos = v) ∧
      (stat.repos = none → ∀ v, d.repos = some v →
        (resolveJob stat d now).repos = v) ∧
      (stat.repos = none → d.repos = none →
        (resolveJob stat d now).repos = [])) ∧
    ((∀ v, stat.filetypes = some v →
        (resolveJob stat d now).filetypes = v) ∧
      (stat.filetypes = none → ∀ v, d.filetypes = some v →
        (resolveJob stat d now).filetypes = v) ∧
      (stat.filetypes = none → d.filetypes = none →
        (resolveJob stat d now).filetypes = [])) ∧
    ((∀ v, stat.start_date = some v → (resolveJob stat d now).start = v) ∧
      (stat.start_date = none → ∀ v, d.start_date = some v →
        (resolveJob stat d now).start = v) ∧
      (stat.start_date = none → d.start_date = none →
        (resolveJob stat d now).start = 0)) ∧
    ((∀ v, stat.end_date = some v → (resolveJob stat d now).end_ = v) ∧
      (stat.end_date = none → ∀ v, d.end_date = some v →
        (resolveJob stat d now).end_ = v) ∧
      (stat.end_date = none → d.end_date = none →
        (resolveJob stat d now).end_ = now)) ∧
    (∀ s₁ s₂ : RawTable, s₁.label = s₂.label →
      (resolveJob s₁ d now).label = (resolveJob s₂ d now).label) ∧
    (∀ s₁ s₂ : RawTable, s₁.repos = s₂.repos →
      (resolveJob s₁ d now).repos = (resolveJob s₂ d now).repos) ∧
    (∀ s₁ s₂ : RawTable, s₁.filetypes = s₂.filetypes →
      (resolveJob s₁ d now).filetypes = (resolveJob s₂ d now).filetypes) ∧
    (∀ s₁ s₂ : RawTable, s₁.start_date = s₂.start_date →
      (resolveJob s₁ d now).start = (resolveJob s₂ d now).start) ∧
    (∀ s₁ s₂ : RawTable, s₁.end_date = s₂.end_date →
      (resolveJob s₁ d now).end_ = (resolveJob s₂ d now).end_) := by
  refine ⟨⟨?_, ?_, ?_⟩, ⟨?_, ?_, ?_⟩, ⟨?_, ?_, ?_⟩, ⟨?_, ?_, ?_⟩,
    ⟨?_, ?_, ?_⟩, ?_, ?_, ?_, ?_, ?_⟩ <;>
    (intros; simp_all [resolveJob, trygetitem])

theorem c2_field_resolution_witness :
    (resolveJob ⟨some "a", none, some ["ts"], none, none⟩
      ⟨none, some ["r"], none, none, some 5⟩ 9).label = "a" ∧
    (resolveJob ⟨some "a", none, some ["ts"], none, none⟩
      ⟨none, some ["r"], none, none, some 5⟩ 9).repos = ["r"] ∧
    (resolveJob ⟨some "a", none, some ["ts"], none, none⟩
      ⟨none, some ["r"], none, none, some 5⟩ 9).start = 0 ∧
    (resolveJob ⟨some "a", none, some ["ts"], none, none⟩
      ⟨none, some ["r"], none, none, some 5⟩ 9).end_ = 5 := by
  have h := c2_field_resolution ⟨some "a", none, some ["ts"], none, none⟩
    ⟨none, some ["r"], none, none, some 5⟩ 9
  exact ⟨h.1.1 "a" rfl, h.2.1.2.1 rfl ["r"] rfl, h.2.2.2.1.2.2 rfl rfl,
    h.2.2.2.2.1.2.1 rfl 5 rfl⟩

/-- One commit's contribution to an author is invariant under permuting the
commit's file list. -/
theorem specAuthorTotal_congr (ft : List String) (a : String) (x y : Commit)
    (hA : x.author = y.author) (hF : x.files.Perm y.files) :
    specAuthorTotal ft a x = specAuthorTotal ft a y := by
  unfold specAuthorTotal
  rw [hA]
  cases hy : y.author with
  | none => simp [hy]
  | some auth =>
    simp only [hy]
    cases hn : auth.name with
    | none => simp [hn]
    | some n =>
      simp only [hn]
      by_cases hna : n = a
      · simp only [hna, if_true]
        exact ((hF.filter _).map _).sum_eq
      · simp [hna]

theorem forall₂_map_specAuthorTotal (ft : List String) (a : String)
    (c₁ mid : List Commit)
    (h : List.Forall₂
      (fun x y => x.author = y.author ∧ x.files.Perm y.files) c₁ mid) :
    c₁.map (specAuthorTotal ft a) = mid.map (specAuthorTotal ft a) := by
  induction h with
  | nil => rfl
  | cons hxy _ ih =>
    simp only [List.map_cons, ih, List.cons.injEq, and_true]
    exact specAuthorTotal_congr ft a _ _ hxy.1 hxy.2

/-- C3: the tally is invariant under rearranging traversal order — permuting
each commit's files and then the commit sequence leaves every author's
accumulated total unchanged (accumulation is addition, not replacement). -/
theorem c3_order_invariance (ft : List String) (c₁ mid c₂ : List Commit)
    (a : String)
    (h₁ : List.Forall₂
      (fun x y => x.author = y.author ∧ x.files.Perm y.files) c₁ mid)
    (h₂ : mid.Perm c₂) :
    dictGetD (collectCommits ft c₁ []) a 0 =
      dictGetD (collectCommits ft c₂ []) a 0 := by
  rw [dictGetD_collectCommits, dictGetD_collectCommits]
  rw [forall₂_map_specAuthorTotal ft a c₁ mid h₁,
    (h₂.map (specAuthorTotal ft a)).sum_eq]

theorem c3_order_invariance_witness :
    dictGetD (collectCommits ["ts"]
      [⟨some ⟨some "Alice"⟩, [⟨"x.ts", 4⟩, ⟨"y.ts", 2⟩]⟩,
       ⟨some ⟨some "Bob"⟩, [⟨"z.ts", 1⟩]⟩] []) "Alice" 0 =
    dictGetD (collectCommits ["ts"]
      [⟨some ⟨some "Bob"⟩, [⟨"z.ts", 1⟩]⟩,
       ⟨some ⟨some "Alice"⟩, [⟨"y.ts", 2⟩, ⟨"x.ts", 4⟩]⟩] []) "Alice" 0 :=
  c3_order_invariance ["ts"]
    [⟨some ⟨some "Alice"⟩, [⟨"x.ts", 4⟩, ⟨"y.ts", 2⟩]⟩,
     ⟨some ⟨some "Bob"⟩, [⟨"z.ts", 1⟩]⟩]
    [⟨some ⟨some "Alice"⟩, [⟨"y.ts", 2⟩, ⟨"x.ts", 4⟩]⟩,
     ⟨some ⟨some "Bob"⟩, [⟨"z.ts", 1⟩]⟩]
    [⟨some ⟨some "Bob"⟩, [⟨"z.ts", 1⟩]⟩,
     ⟨some ⟨some "Alice"⟩, [⟨"y.ts", 2⟩, ⟨"x.ts", 4⟩]⟩]
    "Alice"
    (List.Forall₂.cons
      ⟨rfl, List.Perm.swap (⟨"y.ts", 2⟩ : FileChange) (⟨"x.ts", 4⟩ : FileChange) []⟩
      (List.Forall₂.cons ⟨rfl, List.Perm.refl _⟩ List.Forall₂.nil))
    (List.Perm.swap (⟨some ⟨some "Bob"⟩, [⟨"z.ts", 1⟩]⟩ : Commit)
      (⟨some ⟨some "Alice"⟩, [⟨"y.ts", 2⟩, ⟨"x.ts", 4⟩]⟩ : Commit) [])

/-- C4: when two stat jobs resolve to the same label, the table after both
commit is exactly one entry for that label holding the second job's tally
(last-write-wins), not a merge. -/
theorem c4_last_write_wins (gh : String → Option Repo) (s₁ s₂ d : RawTable)
    (now : Int) (t₁ t₂ : Tally)
    (h₁ : collectRepos gh (resolveJob s₁ d now) = .ok t₁)
    (h₂ : collectRepos gh (resolveJob s₂ d now) = .ok t₂)
    (hL : (resolveJob s₁ d now).label = (resolveJob s₂ d now).label) :
    runJobs gh d now [s₁, s₂] "" [] =
      .ok ((resolveJob s₂ d now).label, [((resolveJob s₂ d now).label, t₂)]) := by
  simp only [runJobs, h₁, h₂, dictSet, hL]
  simp

theorem c4_last_write_wins_witness :
    runJobs w4gh emptyRawTable 0 [w4s1, w4s2] "" [] =
      .ok ((resolveJob w4s2 emptyRawTable 0).label,
        [((resolveJob w4s2 emptyRawTable 0).label, [("bob", 5)])]) :=
  c4_last_write_wins w4gh w4s1 w4s2 emptyRawTable 0 [("alice", 3)]
    [("bob", 5)] (by rfl) (by rfl) (by rfl)

/-- C5: on a csv-extension output target, the encoder emits the header row
`user, contrib` followed by exactly one row per author of the tally of the
last job processed (looked up under the last label assigned); the other
labels of the table are not emitted at all. -/
theorem c5_csv_last_job_only (gh : String → Option Repo) (d : RawTable)
    (now : Int) (init : List RawTable) (lastS : RawTable) (outName : String)
    (t : Tally) (label : String) (output : Agg)
    (hext : extOf outName = "csv")
    (hrun : runJobs gh d now (init ++ [lastS]) "" [] = .ok (label, output))
    (ht : collectRepos gh (resolveJob lastS d now) = .ok t) :
    write_output output outName label =
      .ok (.csvOut
        (["user", "contrib"] :: t.map fun kv => [kv.1, toString kv.2])) := by
  obtain ⟨hlab, t', ht', hget⟩ :=
    runJobs_concat gh d now init lastS "" [] label output hrun
  rw [ht] at ht'
  injection ht' with hT
  subst hT
  simp only [write_output, hext]
  simp [hget]

theorem c5_csv_last_job_only_witness :
    write_output [("a", [("alice", 3)]), ("b", [("bob", 5)])] "out.csv" "b" =
      .ok (.csvOut
        (["user", "contrib"] ::
          [("bob", 5)].map fun kv => [kv.1, toString kv.2])) :=
  c5_csv_last_job_only w5gh emptyRawTable 0 [w5sa] w5sb "out.csv"
    [("bob", 5)] "b" [("a", [("alice", 3)]), ("b", [("bob", 5)])]
    (by rfl) (by rfl) (by rfl)

/-- Every non-csv branch of `write_output` succeeds on any table. -/
theorem write_output_ok_of_ne_csv (t : Agg) (n l : String)
    (h : extOf n ≠ "csv") : ∃ od, write_output t n l = .ok od := by
  unfold write_output
  by_cases h1 : extOf n = "toml"
  · exact ⟨.tomlOut t, by simp [h1]⟩
  · by_cases h2 : extOf n = "json"
    · exact ⟨.jsonOut t, by simp [h1, h2]⟩
    · exact ⟨.reprOut t, by simp [h1, h2, h]⟩

/-- C6 fails as stated: on an output target with extension csv, a run whose
`stats` list is empty crashes with an uncaught `KeyError` in `write_output`
(the initial empty label was never inserted into the empty table), instead of
exiting successfully. -/
theorem c6_counterexample :
    mainModel "in.toml" "out.csv" true true
      (.ok ⟨none, none, some []⟩) (fun _ => none) 0 = .keyError := by
  rfl

/-- C6 as amended: with an empty (or missing) `stats` list and an output
target whose extension is not csv, the run commits an aggregation table with
zero entries, writes it without error, and exits successfully; on a
csv-extension target it instead crashes with a `KeyError`
(see the counterexample). -/
theorem c6_empty_stats (inputName outName : String) (cfg : RawConfig)
    (gh : String → Option Repo) (now : Int)
    (hin : inputName ≠ "-")
    (hstats : trygetitem [cfg.stats] [] = ([] : List RawTable))
    (hext : extOf outName ≠ "csv") :
    ∃ od, mainModel inputName outName true true (.ok cfg) gh now =
        .exited 0 (some od) ∧ write_output [] outName "" = .ok od := by
  obtain ⟨od, hod⟩ := write_output_ok_of_ne_csv [] outName "" hext
  refine ⟨od, ?_, hod⟩
  simp [mainModel, mainAfterParse, hin, hstats, runJobs, hod]

theorem c6_empty_stats_witness :
    ∃ od, mainModel "in.toml" "out.json" true true
        (.ok ⟨none, none, some []⟩) (fun _ => none) 0 =
          .exited 0 (some od) ∧
      write_output [] "out.json" "" = .ok od :=
  c6_empty_stats "in.toml" "out.json" ⟨none, none, some []⟩ (fun _ => none) 0
    (by decide) (by rfl) (by decide)

/-- C7: the failure classes exit with distinct non-zero codes — 1 for
input-open failure, 2 for output-open failure, 3 for TOML decode failure,
4 for repository-resolution failure (the only error the stats loop raises),
each with no output written; a fully successful run exits 0 with the output
written, and the interrupt handler exits 0. -/
theorem c7_exit_codes :
    (∀ (iN oN : String) (oOk : Bool) (parsed : Except Unit RawConfig)
        (gh : String → Option Repo) (now : Int), iN ≠ "-" →
      mainModel iN oN false oOk parsed gh now = .exited 1 none) ∧
    (∀ (iN oN : String) (iOk : Bool) (parsed : Except Unit RawConfig)
        (gh : String → Option Repo) (now : Int),
      (iN = "-" ∨ iOk = true) → oN ≠ "-" →
      mainModel iN oN iOk false parsed gh now = .exited 2 none) ∧
    (∀ (iN oN : String) (gh : String → Option Repo) (now : Int), iN ≠ "-" →
      mainModel iN oN true true (.error ()) gh now = .exited 3 none) ∧
    (∀ (gh : String → Option Repo) (d : RawTable) (now : Int)
        (stats : List RawTable) (l₀ : String) (o₀ : Agg) (c : Nat),
      runJobs gh d now stats l₀ o₀ = .error c → c = 4) ∧
    (∀ (iN oN : String) (gh : String → Option Repo) (now : Int)
        (cfg : RawConfig), iN ≠ "-" →
      runJobs gh (trygetitem [cfg.defaultTable] emptyRawTable) now
          (trygetitem [cfg.stats] []) "" [] = .error 4 →
      mainModel iN oN true true (.ok cfg) gh now = .exited 4 none) ∧
    (∀ (iN oN : String) (gh : String → Option Repo) (now : Int)
        (cfg : RawConfig) (label : String) (output : Agg) (od : OutData),
      iN ≠ "-" →
      runJobs gh (trygetitem [cfg.defaultTable] emptyRawTable) now
          (trygetitem [cfg.stats] []) "" [] = .ok (label, output) →
      write_output output oN label = .ok od →
      mainModel iN oN true true (.ok cfg) gh now = .exited 0 (some od)) ∧
    handleSignalCode = 0 ∧
    ((1 : Nat) ≠ 0 ∧ (2 : Nat) ≠ 0 ∧ (3 : Nat) ≠ 0 ∧ (4 : Nat) ≠ 0 ∧
      (1 : Nat) ≠ 2 ∧ (1 : Nat) ≠ 3 ∧ (1 : Nat) ≠ 4 ∧ (2 : Nat) ≠ 3 ∧
      (2 : Nat) ≠ 4 ∧ (3 : Nat) ≠ 4) := by
  refine ⟨?_, ?_, ?_, runJobs_error_eq_four, ?_, ?_, rfl, by decide⟩
  · intro iN oN oOk parsed gh now hin
    simp [mainModel, hin]
  · intro iN oN iOk parsed gh now hi ho
    rcases hi with hi | hi
    · simp [mainModel, hi, ho]
    · cases hiN : decide (iN = "-") <;> simp_all [mainModel]
  · intro iN oN gh now hin
    simp [mainModel, hin]
  · intro iN oN gh now cfg hin hrun
    simp [mainModel, mainAfterParse, hin, hrun]
  · intro iN oN gh now cfg label output od hin hrun hw
    simp [mainModel, mainAfterParse, hin, hrun, hw]

theorem c7_exit_codes_witness :
    mainModel "in.toml" "-" false true (.ok ⟨none, none, none⟩)
        (fun _ => none) 0 = .exited 1 none ∧
    mainModel "in.toml" "out.json" true false (.ok ⟨none, none, none⟩)
        (fun _ => none) 0 = .exited 2 none ∧
    mainModel "in.toml" "-" true true (.error ()) (fun _ => none) 0 =
      .exited 3 none ∧
    mainModel "in.toml" "-" true true
        (.ok ⟨none, none, some [w4s1]⟩) (fun _ => none) 0 =
      .exited 4 none ∧
    handleSignalCode = 0 := by
  have h := c7_exit_codes
  exact ⟨h.1 "in.toml" "-" true (.ok ⟨none, none, none⟩) (fun _ => none) 0
      (by decide),
    h.2.1 "in.toml" "out.json" true (.ok ⟨none, none, none⟩) (fun _ => none) 0
      (Or.inr rfl) (by decide),
    h.2.2.1 "in.toml" "-" (fun _ => none) 0 (by decide),
    h.2.2.2.2.1 "in.toml" "-" (fun _ => none) 0 ⟨none, none, some [w4s1]⟩
      (by decide) (by rfl),
    h.2.2.2.2.2.2.1⟩

/-- C8: the extension used by the filter is the token after the last dot of
the filename — a dot-free filename yields itself — and a file is accumulated
exactly when that token is a member of the configured filetypes list, so the
empty list keeps no file. -/
theorem c8_extension_filter :
    (∀ s : String, '.' ∉ s.data → extOf s = s) ∧
    (∀ pre suf : String, '.' ∉ suf.data → extOf (pre ++ "." ++ suf) = suf) ∧
    (∀ (ft : List String) (name : String) (t : Tally) (f : FileChange),
      extOf f.filename ∈ ft →
        fileStep ft name t f = addornewitem t name f.changes) ∧
    (∀ (ft : List String) (name : String) (t : Tally) (f : FileChange),
      extOf f.filename ∉ ft → fileStep ft name t f = t) ∧
    (∀ (name : String) (t : Tally) (f : FileChange),
      fileStep [] name t f = t) := by
  refine ⟨extOf_no_dot, extOf_append_dot, ?_, ?_, ?_⟩
  · intro ft name t f h
    simp [fileStep, h]
  · intro ft name t f h
    simp [fileStep, h]
  · intro name t f
    simp [fileStep]

theorem c8_extension_filter_witness :
    extOf "Makefile" = "Makefile" ∧
    extOf ("archive.tar" ++ "." ++ "gz") = "gz" ∧
    fileStep ["ts"] "alice" [] ⟨"a.ts", 2⟩ = addornewitem [] "alice" 2 ∧
    fileStep ["ts"] "alice" [] ⟨"a.py", 2⟩ = [] ∧
    fileStep [] "alice" [] ⟨"a.ts", 2⟩ = [] := by
  have h := c8_extension_filter
  exact ⟨h.1 "Makefile" (by decide), h.2.1 "archive.tar" "gz" (by decide),
    h.2.2.1 ["ts"] "alice" [] ⟨"a.ts", 2⟩ (by decide),
    h.2.2.2.1 ["ts"] "alice" [] ⟨"a.py", 2⟩ (by decide),
    h.2.2.2.2 "alice" [] ⟨"a.ts", 2⟩⟩

/-- C10: after a non-empty stats list, the final label is the last job's
resolved label and is a key of the table, bound to that job's own tally, so
the csv lookup cannot fail; with an empty stats list the loop yields the
initial empty label and empty table, whose lookup is a `KeyError`. -/
theorem c10_csv_lookup (gh : String → Option Repo) (d : RawTable) (now : Int) :
    (∀ (init : List RawTable) (lastS : RawTable) (label : String)
        (output : Agg),
      runJobs gh d now (init ++ [lastS]) "" [] = .ok (label, output) →
      label = (resolveJob lastS d now).label ∧
        ∃ t, collectRepos gh (resolveJob lastS d now) = .ok t ∧
          dictGet? output label = some t) ∧
    runJobs gh d now [] "" [] = .ok ("", []) ∧
    dictGet? ([] : Agg) "" = none := by
  exact ⟨fun init lastS label output h =>
    runJobs_concat gh d now init lastS "" [] label output h, rfl, rfl⟩

theorem c10_csv_lookup_witness :
    ("b" = (resolveJob w5sb emptyRawTable 0).label ∧
      ∃ t, collectRepos w5gh (resolveJob w5sb emptyRawTable 0) = .ok t ∧
        dictGet? [("a", [("alice", 3)]), ("b", [("bob", 5)])] "b" = some t) ∧
    runJobs w5gh emptyRawTable 0 [] "" [] = .ok ("", []) := by
  have h := c10_csv_lookup w5gh emptyRawTable 0
  exact ⟨h.1 [w5sa] w5sb "b" [("a", [("alice", 3)]), ("b", [("bob", 5)])]
    (by rfl), h.2.1⟩

/-! ## The observation sink does not alter the computation (C9) -/

theorem printL_true (log : List Msg) (m : Msg) : printL true log m = log := rfl

theorem fileStepL_true (ft : List String) (n : String) (t : Tally)
    (log : List Msg) (f : FileChange) :
    fileStepL true ft n (t, log) f = (fileStep ft n t f, log) := by
  unfold fileStepL fileStep
  by_cases h : extOf f.filename ∈ ft <;> simp [h, printL]

theorem fileStepL_fst (s : Bool) (ft : List String) (n : String) (t : Tally)
    (log : List Msg) (f : FileChange) :
    (fileStepL s ft n (t, log) f).1 = fileStep ft n t f := by
  unfold fileStepL fileStep
  by_cases h : extOf f.filename ∈ ft <;> simp [h]

theorem foldl_fileStepL_true (ft : List String) (n : String)
    (files : List FileChange) :
    ∀ (t : Tally) (log : List Msg),
      List.foldl (fileStepL true ft n) (t, log) files =
        (List.foldl (fileStep ft n) t files, log) := by
  induction files with
  | nil => intro t log; rfl
  | cons f fs ih =>
    intro t log
    rw [List.foldl_cons, List.foldl_cons, fileStepL_true]
    exact ih _ _

theorem foldl_fileStepL_fst (s : Bool) (ft : List String) (n : String)
    (files : List FileChange) :
    ∀ (t : Tally) (log : List Msg),
      (List.foldl (fileStepL s ft n) (t, log) files).1 =
        List.foldl (fileStep ft n) t files := by
  induction files with
  | nil => intro t log; rfl
  | cons f fs ih =>
    intro t log
    rw [List.foldl_cons, List.foldl_cons]
    rcases hq : fileStepL s ft n (t, log) f with ⟨u, lg⟩
    have hu : u = fileStep ft n t f := by
      have h := fileStepL_fst s ft n t log f
      rw [hq] at h
      exact h
    rw [ih u lg, hu]

theorem processCommitL_true (ft : List String) (t : Tally) (log : List Msg)
    (c : Commit) :
    processCommitL true ft (t, log) c = (processCommit ft t c, log) := by
  obtain ⟨a?, files⟩ := c
  cases a? with
  | none => rfl
  | some a =>
    obtain ⟨n?⟩ := a
    cases n? with
    | none => rfl
    | some name => exact foldl_fileStepL_true ft name files t log

theorem processCommitL_fst (s : Bool) (ft : List String) (t : Tally)
    (log : List Msg) (c : Commit) :
    (processCommitL s ft (t, log) c).1 = processCommit ft t c := by
  obtain ⟨a?, files⟩ := c
  cases a? with
  | none => rfl
  | some a =>
    obtain ⟨n?⟩ := a
    cases n? with
    | none => rfl
    | some name => exact foldl_fileStepL_fst s ft name files t log

theorem collectCommitsL_true (ft : List String) (commits : List Commit) :
    ∀ (t : Tally) (log : List Msg),
      collectCommitsL true ft commits (t, log) =
        (collectCommits ft commits t, log) := by
  induction commits with
  | nil => intro t log; rfl
  | cons c cs ih =>
    intro t log
    unfold collectCommitsL collectCommits
    rw [List.foldl_cons, List.foldl_cons, processCommitL_true]
    exact ih _ _

theorem collectCommitsL_fst (s : Bool) (ft : List String)
    (commits : List Commit) :
    ∀ (t : Tally) (log : List Msg),
      (collectCommitsL s ft commits (t, log)).1 =
        collectCommits ft commits t := by
  induction commits with
  | nil => intro t log; rfl
  | cons c cs ih =>
    intro t log
    unfold collectCommitsL collectCommits
    rw [List.foldl_cons, List.foldl_cons]
    rcases hq : processCommitL s ft (t, log) c with ⟨u, lg⟩
    have hu : u = processCommit ft t c := by
      have h := processCommitL_fst s ft t log c
      rw [hq] at h
      exact h
    have h2 := ih u lg
    unfold collectCommitsL collectCommits at h2
    rw [h2, hu]

theorem collectReposGoL_true (gh : String → Option Repo)
    (ft : List String) (st en : Int) (repos : List String) :
    ∀ (t : Tally) (log : List Msg),
      collectReposGoL true gh ft st en repos (t, log) =
        (match collectReposGo gh ft st en repos t with
          | .ok u => .ok (u, log)
          | .error _ => .error log) := by
  induction repos with
  | nil => intro t log; rfl
  | cons r rs ih =>
    intro t log
    simp only [collectReposGoL, collectReposGo]
    cases hg : gh r with
    | none => simp [hg, printL]
    | some repo =>
      simp only [hg]
      rw [printL_true, collectCommitsL_true]
      exact ih _ _

theorem collectReposGoL_proj (s : Bool) (gh : String → Option Repo)
    (ft : List String) (st en : Int) (repos : List String) :
    ∀ (t : Tally) (log : List Msg),
      exceptTally (collectReposGoL s gh ft st en repos (t, log)) =
        collectReposGo gh ft st en repos t := by
  induction repos with
  | nil => intro t log; rfl
  | cons r rs ih =>
    intro t log
    simp only [collectReposGoL, collectReposGo]
    cases hg : gh r with
    | none => simp [hg, exceptTally]
    | some repo =>
      simp only [hg]
      rcases hq : collectCommitsL s ft (repo.commits st en)
          (t, printL s log (.processingRepo r)) with ⟨u, lg⟩
      have hu : u = collectCommits ft (repo.commits st en) t := by
        have h := collectCommitsL_fst s ft (repo.commits st en) t
          (printL s log (.processingRepo r))
        rw [hq] at h
        exact h
      rw [ih u lg, hu]

theorem runJobsL_true (gh : String → Option Repo) (d : RawTable) (now : Int)
    (stats : List RawTable) :
    ∀ (l₀ : String) (o₀ : Agg) (log : List Msg),
      runJobsL true gh d now stats l₀ o₀ log =
        (match runJobs gh d now stats l₀ o₀ with
          | .ok (l, o) => .ok (l, o, log)
          | .error c => .error (c, log)) := by
  induction stats with
  | nil => intro l₀ o₀ log; rfl
  | cons st rest ih =>
    intro l₀ o₀ log
    simp only [runJobsL, runJobs]
    rw [printL_true, collectReposGoL_true]
    cases hc : collectReposGo gh (resolveJob st d now).filetypes
        (resolveJob st d now).start (resolveJob st d now).end_
        (resolveJob st d now).repos [] with
    | error e =>
      have hc2 : collectRepos gh (resolveJob st d now) = .error e := hc
      rw [hc2]
    | ok authors =>
      have hc2 : collectRepos gh (resolveJob st d now) = .ok authors := hc
      rw [hc2]
      exact ih _ _ _

theorem runJobsL_proj (s : Bool) (gh : String → Option Repo) (d : RawTable)
    (now : Int) (stats : List RawTable) :
    ∀ (l₀ : String) (o₀ : Agg) (log : List Msg),
      exceptAgg (runJobsL s gh d now stats l₀ o₀ log) =
        runJobs gh d now stats l₀ o₀ := by
  induction stats with
  | nil => intro l₀ o₀ log; rfl
  | cons st rest ih =>
    intro l₀ o₀ log
    simp only [runJobsL, runJobs]
    cases hq : collectReposGoL s gh (resolveJob st d now).filetypes
        (resolveJob st d now).start (resolveJob st d now).end_
        (resolveJob st d now).repos
        ([], printL s log (.processingLabel (resolveJob st d now).label)) with
    | error lg =>
      have h := collectReposGoL_proj s gh (resolveJob st d now).filetypes
        (resolveJob st d now).start (resolveJob st d now).end_
        (resolveJob st d now).repos []
        (printL s log (.processingLabel (resolveJob st d now).label))
      rw [hq] at h
      have hcr : collectRepos gh (resolveJob st d now) = .error () := by
        unfold collectRepos
        rw [← h]
        rfl
      rw [hcr]
      rfl
    | ok p =>
      obtain ⟨u, lg⟩ := p
      have h := collectReposGoL_proj s gh (resolveJob st d now).filetypes
        (resolveJob st d now).start (resolveJob st d now).end_
        (resolveJob st d now).repos []
        (printL s log (.processingLabel (resolveJob st d now).label))
      rw [hq] at h
      have hcr : collectRepos gh (resolveJob st d now) = .ok u := by
        unfold collectRepos
        rw [← h]
        rfl
      rw [hcr]
      exact ih _ _ _

theorem filetype_checkL_true (n : String) (c : Nat) (log : List Msg) :
    filetype_checkL true n c log = log := by
  simp [filetype_checkL, printL]

theorem mainWriteL_fst (s : Bool) (oN : String)
    (res : Except (Nat × List Msg) (String × Agg × List Msg)) :
    (mainWriteL s oN res).1 =
      (match exceptAgg res with
        | .error c => .exited c none
        | .ok (l, o) =>
          match write_output o oN l with
          | .error _ => .keyError
          | .ok od => .exited 0 (some od)) := by
  cases res with
  | error p =>
    obtain ⟨c, lg⟩ := p
    rfl
  | ok p =>
    obtain ⟨l, o, lg⟩ := p
    cases hw : write_output o oN l <;> simp [mainWriteL, exceptAgg, hw]

theorem mainAfterParseL_true (hasToken : Bool) (oN : String) (cfg : RawConfig)
    (gh : String → Option Repo) (now : Int) (log : List Msg) :
    mainAfterParseL true hasToken oN cfg gh now log =
      (mainAfterParse oN cfg gh now, log) := by
  simp only [mainAfterParseL, mainAfterParse, filetype_checkL_true,
    printL_true, ite_self]
  rw [runJobsL_true]
  cases hr : runJobs gh (trygetitem [cfg.defaultTable] emptyRawTable) now
      (trygetitem [cfg.stats] []) "" [] with
  | error c => rfl
  | ok lo =>
    obtain ⟨l, o⟩ := lo
    simp only [mainWriteL, printL_true]
    cases hw : write_output o oN l <;> rfl

theorem mainAfterParseL_fst (s hasToken : Bool) (oN : String)
    (cfg : RawConfig) (gh : String → Option Repo) (now : Int)
    (log : List Msg) :
    (mainAfterParseL s hasToken oN cfg gh now log).1 =
      mainAfterParse oN cfg gh now := by
  simp only [mainAfterParseL, mainAfterParse]
  rw [mainWriteL_fst, runJobsL_proj]

theorem mainModelL_true (hasToken : Bool) (iN oN : String) (iOk oOk : Bool)
    (parsed : Except Unit RawConfig) (gh : String → Option Repo) (now : Int) :
    mainModelL true hasToken iN oN iOk oOk parsed gh now =
      (mainModel iN oN iOk oOk parsed gh now, []) := by
  simp only [mainModelL, mainModel, printL_true, ite_self]
  split_ifs <;>
    first
      | rfl
      | exact mainAfterParseL_true hasToken oN defaultConfig gh now []
      | (cases parsed with
          | error e => rfl
          | ok cfg => exact mainAfterParseL_true hasToken oN cfg gh now [])

theorem mainModelL_fst (s hasToken : Bool) (iN oN : String) (iOk oOk : Bool)
    (parsed : Except Unit RawConfig) (gh : String → Option Repo) (now : Int) :
    (mainModelL s hasToken iN oN iOk oOk parsed gh now).1 =
      mainModel iN oN iOk oOk parsed gh now := by
  simp only [mainModelL, mainModel]
  split_ifs <;>
    first
      | rfl
      | exact mainAfterParseL_fst s hasToken oN defaultConfig gh now _
      | (cases parsed with
          | error e => rfl
          | ok cfg => exact mainAfterParseL_fst s hasToken oN cfg gh now _)

/-- C9: a silent run and a non-silent run on identical inputs compute the
same outcome (aggregation tables and serialized output included); silent mode
only suppresses the observation-sink messages, leaving the message stream
empty. -/
theorem c9_silent_mode (hasToken : Bool) (iN oN : String) (iOk oOk : Bool)
    (parsed : Except Unit RawConfig) (gh : String → Option Repo) (now : Int) :
    mainModelL true hasToken iN oN iOk oOk parsed gh now =
      (mainModel iN oN iOk oOk parsed gh now, []) ∧
    (mainModelL false hasToken iN oN iOk oOk parsed gh now).1 =
      mainModel iN oN iOk oOk parsed gh now :=
  ⟨mainModelL_true hasToken iN oN iOk oOk parsed gh now,
    mainModelL_fst false hasToken iN oN iOk oOk parsed gh now⟩

end ContribStats
